import Mathlib

/-!
Verification of the CTD25 kung-fu chess core against its specification.

The development shallowly embeds the parts of the repository that the
claims touch:

* `KungFu` — the `KungFu Chess` variant: `Physics` (Motion Interpolator),
  the per-piece state machine (`KPiece`), and `Game._process_input`.
* `KFC` — the `KFC_Py` variant: the collision/capture resolver
  (`Game._resolve_collisions`), board validation (`Game._validate`) and
  the command pipeline lookup (`Game._process_input`).
* `Factory` — `PieceFactory.create_piece`, the state-graph clone routine.
* `Net` — `chess_server.py` / `chess_client.py`, the peer relay.

Machine integers are modelled as `Int` (Python integers are unbounded).
Python float quantities appear only in the travel-duration computation
`max(200, hypot(dx,dy)/4*1000)`; durations are represented exactly by the
inductive `KungFu.DurMs` (see its doc comment) so that every definition
stays executable.
-/

/-- A board cell `(row, col)` as used throughout the repository. -/
abbrev Cell : Type := Int × Int

/-- Modelled from the spec: the `Command` value type (the repository's
`Command.py` is not under `src/`; every constructor call in the sources has
the shape `Command(timestamp, piece_id, type, params)` and the fields read
are exactly `timestamp`, `piece_id`, `type`, `params`). -/
structure Command where
  timestamp : Int
  piece_id : String
  type : String
  params : List Cell
deriving DecidableEq, Repr

namespace KungFu

/-- Exact representation of `Physics.duration_ms`.

In `Physics.reset` the source computes
`duration_ms = max(200, math.hypot(dx, dy) / SLIDE_CELLS_PER_SEC * 1000)`
with `SLIDE_CELLS_PER_SEC = 4.0`, i.e. `max 200 (250 * sqrt (dx^2+dy^2))`,
an irrational real in general.  `State.get_state_after_command` instead
assigns the literal rest length (`p.duration_ms = rest_ms`).  We store the
defining data instead of the real number:

* `slide dsq` stands for `max 200 (250 * Real.sqrt dsq)` milliseconds,
  where `dsq = dx^2 + dy^2` is the squared cell distance;
* `fixed ms` stands for exactly `ms` milliseconds.

The only use the source makes of `duration_ms` in the claims' scope is the
test `t >= 1.0` with `t = min(1.0, (now - start_ms)/duration_ms)`, i.e.
`now - start_ms >= duration_ms`; `durReached` decides that comparison
exactly: for `slide dsq`, `e >= max 200 (250*sqrt dsq)` iff
`200 <= e` and `62500*dsq <= e^2` (both sides nonnegative once `200 <= e`). -/
inductive DurMs where
  | slide (distSq : Int)
  | fixed (ms : Int)
deriving DecidableEq, Repr

/-- `durReached d e` decides `e >= duration`, the source's `t >= 1.0`. -/
def durReached (d : DurMs) (e : Int) : Bool :=
  match d with
  | .slide dsq => decide (200 ≤ e) && decide (62500 * dsq ≤ e ^ 2)
  | .fixed ms => decide (ms ≤ e)

/-- `KungFu Chess/Physics.py`, class `Physics`.  Fields kept are the ones
the claims observe; `board`, `speed`, `last_square` and the pixel position
`curr_px` (pure rendering traces) are omitted.  The piece's current board
cell is `start_cell` (the occupancy map `Game.pos` is keyed on
`p.state.physics.start_cell`). -/
structure Physics where
  start_cell : Cell
  end_cell : Cell
  start_ms : Int
  wait_only : Bool
  mode : String
  duration : DurMs
deriving DecidableEq, Repr

/-- `Physics.reset(cmd)`: `cmd.params` may be empty (an `"Idle"` reset), in
which case the destination defaults to `start_cell`. -/
def Physics.reset (p : Physics) (cmd : Command) : Physics :=
  let dest := cmd.params.headD p.start_cell
  let dy := dest.1 - p.start_cell.1
  let dx := dest.2 - p.start_cell.2
  let dsq := dy * dy + dx * dx
  { p with
    mode := cmd.type
    end_cell := dest
    start_ms := cmd.timestamp
    wait_only := decide (dsq = 0) && decide (cmd.type ≠ "Idle")
    duration := .slide dsq }

/-- `Physics.update(now_ms)`: returns the new physics state and the
optional internal `Arrived` command.  Mirrors the source:
an un-armed interpolator (`start_cell == end_cell and not wait_only`)
returns immediately; otherwise when `t` reaches `1.0` the current square
snaps to the destination (`self.start_cell = self.end_cell`), `wait_only`
is cleared and an `Arrived` command is returned. -/
def Physics.update (p : Physics) (now : Int) : Physics × Option Command :=
  if p.start_cell = p.end_cell ∧ p.wait_only = false then (p, none)
  else if durReached p.duration (now - p.start_ms) then
    ({ p with start_cell := p.end_cell, wait_only := false },
      some ⟨now, "?", "Arrived", []⟩)
  else (p, none)

end KungFu

/-- C4 helper: updating never changes `end_cell`. -/
theorem KungFu.Physics.update_end_cell (p : KungFu.Physics) (now : Int) :
    ((p.update now).1).end_cell = p.end_cell := by
  unfold KungFu.Physics.update
  split
  · rfl
  · split <;> rfl

/-- C4 — For every armed traversal (`start_cell ≠ end_cell` or
`wait_only`), the first `update` call at which the clamped progress `t`
reaches `1.0` (decided exactly by `durReached`) snaps the current square to
the destination cell and returns the `Arrived` event; the resulting state
is un-armed and a fixpoint of `update`, so every subsequent `update` call
of that traversal returns no `Arrived` event: the event fires exactly once
per traversal. -/
theorem physics_arrived_fires_exactly_once (p : KungFu.Physics) (now : Int)
    (harmed : ¬ (p.start_cell = p.end_cell ∧ p.wait_only = false))
    (hdone : KungFu.durReached p.duration (now - p.start_ms) = true) :
    ((p.update now).1.start_cell = p.end_cell
      ∧ (p.update now).2 = some ⟨now, "?", "Arrived", []⟩)
    ∧ ∀ later : Int,
        ((p.update now).1.update later).1 = (p.update now).1
        ∧ ((p.update now).1.update later).2 = none := by
  unfold KungFu.Physics.update
  rw [if_neg harmed, if_pos hdone]
  refine ⟨⟨rfl, rfl⟩, ?_⟩
  intro later
  simp

/-- Witness for C4 at a concrete one-cell slide. -/
theorem physics_arrived_fires_exactly_once_witness :
    (((⟨(0,0), (0,1), 0, false, "Move", .slide 1⟩ : KungFu.Physics).update 300).1.start_cell
        = ((0,1) : Cell))
    ∧ (((⟨(0,0), (0,1), 0, false, "Move", .slide 1⟩ : KungFu.Physics).update 300).2
        = some ⟨300, "?", "Arrived", []⟩) := by
  have h := physics_arrived_fires_exactly_once
    ⟨(0,0), (0,1), 0, false, "Move", .slide 1⟩ 300 (by decide) (by decide)
  exact ⟨h.1.1, h.1.2⟩

namespace KungFu

/-- One piece of the `KungFu Chess` variant, folding `Piece` and its
cloned `State` graph into a single record.  All sibling `State`s of one
piece share a single `Physics` instance (see `PieceFactory.create_piece`),
so the piece carries one `physics`; the per-`State` run-time data that
differs between states is `cooldown_end_ms` (`cooldowns`, keyed by state
name), the transition table (`transitions`, keyed by state name and event)
and the motion-rule set (`movesOf`, the state's `Moves.rel_moves`). -/
structure KPiece where
  id : String
  physics : Physics
  stateName : String
  cooldowns : String → Int
  transitions : String → String → Option String
  movesOf : String → List (Int × Int)

/-- `State.reset(cmd)` (`KungFu Chess/State.py`, lines 24–31): resets
graphics (out of scope) and physics.  The cooldown assignment present in
the source is commented out, so `cooldown_end_ms` is NOT touched. -/
def KPiece.stateReset (pc : KPiece) (cmd : Command) : KPiece :=
  { pc with physics := pc.physics.reset cmd }

/-- `State.get_state_after_command(cmd, now_ms)`: the `"Arrived"` branch
arms a rest timer on the next state (`fixed` duration, `wait_only`) and
sets its cooldown; a missing transition stays put; otherwise, if the
cooldown has elapsed the next state is reset with the command, else the
current state is refreshed with it. -/
def KPiece.getStateAfterCommand (pc : KPiece) (cmd : Command) (now : Int) : KPiece :=
  match pc.transitions pc.stateName cmd.type with
  | none => pc
  | some nxt =>
    if cmd.type = "Arrived" then
      let rest : Int :=
        if pc.stateName = "move" then 6000
        else if pc.stateName = "jump" then 3000
        else 0
      if rest ≠ 0 then
        { pc with
          stateName := nxt
          physics := { pc.physics with
            start_ms := now, duration := .fixed rest, wait_only := true }
          cooldowns := fun s => if s = nxt then now + rest else pc.cooldowns s }
      else
        { pc with
          stateName := nxt
          cooldowns := fun s => if s = nxt then 0 else pc.cooldowns s }
    else
      if now ≥ pc.cooldowns pc.stateName then
        ({ pc with stateName := nxt }).stateReset cmd
      else
        pc.stateReset cmd

/-- `Piece.on_command(cmd, now_ms)` (`KungFu Chess/Piece.py`): if the
current state's cooldown has elapsed, reset it with the command and take
the transition. -/
def KPiece.onCommand (pc : KPiece) (cmd : Command) (now : Int) : KPiece :=
  if now ≥ pc.cooldowns pc.stateName then
    (pc.stateReset cmd).getStateAfterCommand cmd now
  else pc

end KungFu

/-- C1 counterexample — a fresh king (all cooldowns `0`, idle) accepts
a `Move` command with timestamp `100` (cooldown elapsed and a transition
exists), yet after acceptance the active state's cooldown end time is `0`,
not strictly greater than the command's timestamp: the cooldown assignment
in `State.reset` is commented out in the source.  The interpolator's end
cell does equal the destination. -/
theorem c1_cooldown_counterexample :
    let pc : KungFu.KPiece :=
      { id := "KW_(0,0)"
        physics := ⟨(0,0), (0,0), 0, false, "Idle", .slide 0⟩
        stateName := "idle"
        cooldowns := fun _ => 0
        transitions := fun s e =>
          if s = "idle" ∧ e = "Move" then some "move" else none
        movesOf := fun _ => [] }
    let cmd : Command := ⟨100, "KW_(0,0)", "Move", [(0,1)]⟩
    let post := pc.onCommand cmd 100
    (100 ≥ pc.cooldowns pc.stateName
        ∧ pc.transitions pc.stateName cmd.type = some "move")
    ∧ post.stateName = "move"
    ∧ post.physics.end_cell = (0,1)
    ∧ ¬ (100 < post.cooldowns post.stateName) := by
  refine ⟨⟨by decide, by rfl⟩, by rfl, by rfl, by decide⟩

/-- C1 amended — For every `Move`/`Jump` command the state machine
accepts at time `now` (a transition exists and the current state's
cooldown has elapsed), after acceptance the mover's interpolator's end
cell equals the command's destination cell and its active state is the
transition target, but the cooldown table is left entirely unchanged (the
cooldown is set only later, by the `Arrived` transition into the rest
state), so the cooldown end time need not exceed the command's timestamp. -/
theorem accepted_move_sets_end_cell_keeps_cooldowns
    (pc : KungFu.KPiece) (cmd : Command) (now : Int) (dest : Cell) (nxt : String)
    (hkind : cmd.type = "Move" ∨ cmd.type = "Jump")
    (hparams : cmd.params = [dest])
    (htr : pc.transitions pc.stateName cmd.type = some nxt)
    (hcool : now ≥ pc.cooldowns pc.stateName) :
    (pc.onCommand cmd now).stateName = nxt
    ∧ (pc.onCommand cmd now).physics.end_cell = dest
    ∧ (pc.onCommand cmd now).cooldowns = pc.cooldowns := by
  have hnotarr : cmd.type ≠ "Arrived" := by
    rcases hkind with h | h <;> simp [h]
  unfold KungFu.KPiece.onCommand
  rw [if_pos hcool]
  unfold KungFu.KPiece.getStateAfterCommand KungFu.KPiece.stateReset
  simp only [htr, if_neg hnotarr]
  rw [if_pos hcool]
  refine ⟨rfl, ?_, rfl⟩
  simp [KungFu.Physics.reset, hparams]

/-- Witness for C1 (amended) at a concrete accepted `Move`. -/
theorem accepted_move_sets_end_cell_keeps_cooldowns_witness :
    let pc : KungFu.KPiece :=
      { id := "QB_(7,3)"
        physics := ⟨(7,3), (7,3), 0, false, "Idle", .slide 0⟩
        stateName := "idle"
        cooldowns := fun _ => 0
        transitions := fun s e =>
          if s = "idle" ∧ e = "Move" then some "move" else none
        movesOf := fun _ => [] }
    let cmd : Command := ⟨50, "QB_(7,3)", "Move", [(5,3)]⟩
    (pc.onCommand cmd 50).stateName = "move"
    ∧ (pc.onCommand cmd 50).physics.end_cell = (5,3)
    ∧ (pc.onCommand cmd 50).cooldowns = pc.cooldowns := by
  intro pc cmd
  exact accepted_move_sets_end_cell_keeps_cooldowns pc cmd 50 (5,3) "move"
    (Or.inl rfl) rfl (by rfl) (by decide)

namespace KungFu

/-- Association-list lookup standing for Python `dict.get`. -/
def lookupCell (pos : List (Cell × String)) (c : Cell) : Option String :=
  match pos.find? (fun e => e.1 = c) with
  | some e => some e.2
  | none => none

/-- `Moves.get_moves(r, c)` (`KungFu Chess/Moves.py`): absolute target
cells of the relative move set, filtered to the `H × W` board. -/
def getMoves (rel : List (Int × Int)) (H W : Int) (r c : Int) : List Cell :=
  rel.filterMap (fun d =>
    let n : Cell := (r + d.1, c + d.2)
    if 0 ≤ n.1 ∧ n.1 < H ∧ 0 ≤ n.2 ∧ n.2 < W then some n else none)

/-- Python `s[i]` on a string, as an `Option`. -/
def charAt (s : String) (i : Nat) : Option Char :=
  s.toList.get? i

/-- Loop body of `Game._path_is_clear`: walk from `cur` one `(dr, dc)`
step at a time until the target, failing on any occupied intermediate
cell.  The source's `while` loop is bounded here by explicit fuel; for the
aligned straight/diagonal moves of the sliding pieces that call it, a fuel
of `|Δrow| + |Δcol| + 1` strictly exceeds the number of iterations. -/
def pathClearAux (pos : List (Cell × String)) (dr dc : Int) :
    Nat → Cell → Cell → Bool
  | 0, _, _ => true
  | fuel + 1, cur, target =>
    if cur = target then true
    else if (lookupCell pos cur).isSome then false
    else pathClearAux pos dr dc fuel (cur.1 + dr, cur.2 + dc) target

/-- `Game._path_is_clear(a, b)` (`KungFu Chess/Game.py`): `dr`/`dc` are the
signs of the deltas (Python's `(x) and (x // abs(x))`). -/
def pathIsClear (pos : List (Cell × String)) (a b : Cell) : Bool :=
  let dr : Int := if b.1 - a.1 > 0 then 1 else if b.1 - a.1 < 0 then -1 else 0
  let dc : Int := if b.2 - a.2 > 0 then 1 else if b.2 - a.2 < 0 then -1 else 0
  pathClearAux pos dr dc ((b.1 - a.1).natAbs + (b.2 - a.2).natAbs + 1)
    (a.1 + dr, a.2 + dc) b

/-- The legality decision of `Game._process_input` (`KungFu Chess/Game.py`,
lines 142–190): `legal_offset` (including the pawn-specific forward/
diagonal rules) and `path_clear` must hold and `friendly_block` must not.
`pos` maps each occupied cell to the occupant's id (the source stores the
`Piece` and reads only its `id`; the source's identity test
`occupant is not mover` is rendered as id inequality, ids being unique per
game).  `H`/`W` are the board dimensions. -/
def inputLegal (mover : KPiece) (pos : List (Cell × String)) (H W : Int)
    (cmd : Command) (dest : Cell) : Bool :=
  let candidate := (mover.transitions mover.stateName cmd.type).getD mover.stateName
  let src := mover.physics.start_cell
  let legal0 : Bool := decide (dest ∈ getMoves (mover.movesOf candidate) H W src.1 src.2)
  let occupant := lookupCell pos dest
  let legal : Bool :=
    if charAt mover.id 0 = some 'P' then
      let direction : Int := if charAt mover.id 1 = some 'W' then -1 else 1
      let dr := dest.1 - src.1
      let dc := dest.2 - src.2
      if dr = direction ∧ dc = 0 then legal0 && occupant.isNone
      else if dr = direction ∧ (dc = 1 ∨ dc = -1) then
        legal0 && occupant.isSome
          && decide ((occupant.bind (fun o => charAt o 1)) ≠ charAt mover.id 1)
      else false
    else legal0
  let friendly : Bool :=
    match occupant with
    | some oid => decide (oid ≠ mover.id) && decide (charAt oid 1 = charAt mover.id 1)
    | none => false
  let clear : Bool :=
    if charAt mover.id 0 = some 'R' ∨ charAt mover.id 0 = some 'B'
        ∨ charAt mover.id 0 = some 'Q' then
      pathIsClear pos src dest
    else true
  legal && clear && !friendly

/-- `Game._process_input(cmd)` (`KungFu Chess/Game.py`, lines 134–198): on
acceptance the mover switches to the candidate state and resets it with
the command; on rejection the current state is reset with a fresh `"Idle"`
command (no state switch).  A command with empty `params` is returned
unchanged (the source would fault on `cmd.params[0]`; input adapters
always supply the destination). -/
def processInput (mover : KPiece) (pos : List (Cell × String)) (H W : Int)
    (cmd : Command) (now : Int) : KPiece :=
  match cmd.params with
  | [] => mover
  | dest :: _ =>
    if inputLegal mover pos H W cmd dest then
      { mover with
        stateName := (mover.transitions mover.stateName cmd.type).getD mover.stateName
        physics := mover.physics.reset cmd }
    else
      mover.stateReset ⟨now, mover.id, "Idle", []⟩

/-- `Physics.reset` never moves the piece: `start_cell` is not assigned. -/
theorem Physics.reset_start_cell (p : Physics) (cmd : Command) :
    (p.reset cmd).start_cell = p.start_cell := rfl

end KungFu

/-- C5 — For every command the legality checks reject (illegal offset,
blocked path, or friendly occupant), the mover's current cell after the
rejection equals its current cell before: the rejection path resets the
state with a fresh `"Idle"` command (`Physics.reset` never assigns
`start_cell`) and performs no state switch, so there is no position
change. -/
theorem rejected_command_keeps_current_cell
    (mover : KungFu.KPiece) (pos : List (Cell × String)) (H W : Int)
    (cmd : Command) (now : Int) (dest : Cell)
    (hparams : cmd.params = dest :: cmd.params.tail)
    (hrej : KungFu.inputLegal mover pos H W cmd dest = false) :
    (KungFu.processInput mover pos H W cmd now).physics.start_cell
        = mover.physics.start_cell
    ∧ (KungFu.processInput mover pos H W cmd now).stateName = mover.stateName := by
  unfold KungFu.processInput
  rw [hparams]
  dsimp only
  rw [if_neg (by simp [hrej])]
  exact ⟨rfl, rfl⟩

/-- Witness for C5: a white pawn ordered diagonally onto an empty square
is rejected (pawn diagonal steps need an enemy occupant) and keeps its
cell and state. -/
theorem rejected_command_keeps_current_cell_witness :
    let mover : KungFu.KPiece :=
      { id := "PW_(6,0)"
        physics := ⟨(6,0), (6,0), 0, false, "Idle", .slide 0⟩
        stateName := "idle"
        cooldowns := fun _ => 0
        transitions := fun s e =>
          if s = "idle" ∧ e = "Move" then some "move" else none
        movesOf := fun _ => [(-1, 0), (-1, 1), (-1, -1)] }
    let cmd : Command := ⟨40, "PW_(6,0)", "Move", [(5,1)]⟩
    (KungFu.processInput mover [] 8 8 cmd 40).physics.start_cell
        = mover.physics.start_cell
    ∧ (KungFu.processInput mover [] 8 8 cmd 40).stateName = mover.stateName := by
  intro mover cmd
  exact rejected_command_keeps_current_cell mover [] 8 8 cmd 40 (5,1)
    (by rfl) (by decide)

namespace KFC

/-- One piece of the `KFC_Py` variant, as observed by
`Game._resolve_collisions` and `Game._validate`.  `KFC_Py`'s `State.py` and
`Physics.py` are not under `src/`; the accessors the resolver calls are
modelled from the spec: `stateName` is `p.state.name` (the named mode),
`startMs` is `p.state.physics.get_start_ms()` (the current traversal's
start timestamp), `currCell` is `p.current_cell()`, `endCell` is
`p.state.physics._end_cell` (the interpolator owns its end cell, so the
source's `hasattr` guard is always taken), and `canBeCaptured` is
`p.state.can_be_captured()` (a single boolean capability per entity). -/
structure FPiece where
  id : String
  stateName : String
  startMs : Int
  currCell : Cell
  endCell : Cell
  canBeCaptured : Bool
deriving DecidableEq, Repr

/-- Python's `str.startswith`, modelled on the character list (Lean's
byte-based built-in is extensionally the same on well-formed strings but
does not reduce inside the kernel). -/
def strStarts (s pre : String) : Bool := pre.toList.isPrefixOf s.toList

/-- `p.id.startswith(('NW', 'NB')) and p.state.name == "move"`. -/
def isMovingKnight (p : FPiece) : Bool :=
  (strStarts p.id "NW" || strStarts p.id "NB") && p.stateName == "move"

/-- Python's `max(a :: l, key=key)`: keeps the current maximum and
replaces it only on a strictly greater key, hence returns the first
maximal element. -/
def pyMax (key : FPiece → Int) : FPiece → List FPiece → FPiece
  | a, [] => a
  | a, b :: t => pyMax key (if key a < key b then b else a) t

/-- Winner selection of `Game._resolve_collisions` for one cell's
contender list (`KFC_Py/Game.py`, lines 393–439): if a moving knight is
present, the first one gates the cell — `none` (skip, no capture) unless
it has reached its destination, in which case it wins; otherwise the
most recently started non-idle piece wins, and if all are idle the most
recently started piece overall wins. -/
def cellWinner (plist : List FPiece) : Option FPiece :=
  match plist.filter isMovingKnight with
  | k :: _ => if k.currCell ≠ k.endCell then none else some k
  | [] =>
    match plist.filter (fun q => q.stateName != "idle") with
    | m :: ms => some (pyMax (·.startMs) m ms)
    | [] =>
      match plist with
      | p :: ps => some (pyMax (·.startMs) p ps)
      | [] => none

/-- The pieces removed at one cell (`KFC_Py/Game.py`, lines 446–453):
every capturable contender other than the winner.  The source's identity
test `p is winner` is rendered structurally. -/
def cellCaptured (plist : List FPiece) : List FPiece :=
  match cellWinner plist with
  | none => []
  | some w => plist.filter (fun p => p != w && p.canBeCaptured)

theorem pyMax_mem (key : FPiece → Int) (a : FPiece) (l : List FPiece) :
    pyMax key a l ∈ a :: l := by
  induction l generalizing a with
  | nil => simp [pyMax]
  | cons b t ih =>
    simp only [pyMax]
    by_cases hk : key a < key b
    · rw [if_pos hk]
      rcases List.mem_cons.mp (ih b) with h | h
      · rw [h]; exact List.mem_cons_of_mem _ (List.mem_cons_self _ _)
      · exact List.mem_cons_of_mem _ (List.mem_cons_of_mem _ h)
    · rw [if_neg hk]
      rcases List.mem_cons.mp (ih a) with h | h
      · rw [h]; exact List.mem_cons_self _ _
      · exact List.mem_cons_of_mem _ (List.mem_cons_of_mem _ h)

theorem pyMax_le (key : FPiece → Int) (a : FPiece) (l : List FPiece) :
    ∀ x ∈ a :: l, key x ≤ key (pyMax key a l) := by
  induction l generalizing a with
  | nil => intro x hx; simp at hx; simp [pyMax, hx]
  | cons b t ih =>
    intro x hx
    simp only [pyMax]
    rcases List.mem_cons.mp hx with h1 | h1
    · subst h1
      by_cases hk : key x < key b
      · rw [if_pos hk]
        calc key x ≤ key b := le_of_lt hk
          _ ≤ key (pyMax key b t) := ih b b (by simp)
      · rw [if_neg hk]
        exact ih x x (by simp)
    · rcases List.mem_cons.mp h1 with h2 | h2
      · subst h2
        by_cases hk : key a < key x
        · rw [if_pos hk]; exact ih x x (by simp)
        · rw [if_neg hk]
          calc key x ≤ key a := le_of_not_lt hk
            _ ≤ key (pyMax key a t) := ih a a (by simp)
      · by_cases hk : key a < key b
        · rw [if_pos hk]; exact ih b x (by simp [h2])
        · rw [if_neg hk]; exact ih a x (by simp [h2])

end KFC

/-- C2 helper: membership-and-bound facts for the winner of a cell with no
moving knight and at least one non-idle contender. -/
theorem cellWinner_no_knights (plist : List KFC.FPiece)
    (hno : ∀ p ∈ plist, KFC.isMovingKnight p = false)
    (hmov : ∃ p ∈ plist, p.stateName ≠ "idle") :
    ∃ w, KFC.cellWinner plist = some w
      ∧ w ∈ plist ∧ w.stateName ≠ "idle"
      ∧ ∀ p ∈ plist, p.stateName ≠ "idle" → p.startMs ≤ w.startMs := by
  have hkn : plist.filter KFC.isMovingKnight = [] := by
    rw [List.filter_eq_nil_iff]
    intro p hp
    simp [hno p hp]
  cases hm : plist.filter (fun q => q.stateName != "idle") with
  | nil =>
    exfalso
    obtain ⟨p, hp, hpn⟩ := hmov
    have : p ∈ plist.filter (fun q => q.stateName != "idle") :=
      List.mem_filter.mpr ⟨hp, by simp [hpn]⟩
    rw [hm] at this
    exact absurd this (List.not_mem_nil p)
  | cons m ms =>
    refine ⟨KFC.pyMax (·.startMs) m ms, ?_, ?_, ?_, ?_⟩
    · simp only [KFC.cellWinner, hkn, hm]
    · have hmem := KFC.pyMax_mem (·.startMs) m ms
      rw [← hm] at hmem
      exact (List.mem_filter.mp hmem).1
    · have hmem := KFC.pyMax_mem (·.startMs) m ms
      rw [← hm] at hmem
      have := (List.mem_filter.mp hmem).2
      simpa using this
    · intro p hp hpn
      have hpf : p ∈ m :: ms := by
        rw [← hm]
        exact List.mem_filter.mpr ⟨hp, by simp [hpn]⟩
      exact KFC.pyMax_le (·.startMs) m ms p hpf

/-- C2 — At every cell the Collision Resolver examines whose
contenders include no mid-traversal knight, if some contender is not in
its idle baseline state, then the survivor is a non-idle contender whose
current traversal has the greatest start timestamp, every other capturable
contender is removed, and the survivor is not removed; in particular, of
two opposite-color non-king entities both mid-traversal at one cell, the
later-started one survives and the earlier-started one is removed. -/
theorem nonidle_latest_started_survives :
    (∀ plist : List KFC.FPiece, 2 ≤ plist.length →
      (∀ p ∈ plist, KFC.isMovingKnight p = false) →
      (∃ p ∈ plist, p.stateName ≠ "idle") →
      ∃ w, KFC.cellWinner plist = some w
        ∧ w ∈ plist ∧ w.stateName ≠ "idle"
        ∧ (∀ p ∈ plist, p.stateName ≠ "idle" → p.startMs ≤ w.startMs)
        ∧ (∀ p ∈ plist, p ≠ w → p.canBeCaptured = true → p ∈ KFC.cellCaptured plist)
        ∧ w ∉ KFC.cellCaptured plist)
    ∧ (∀ p1 p2 : KFC.FPiece,
        KFC.isMovingKnight p1 = false → KFC.isMovingKnight p2 = false →
        p1.stateName ≠ "idle" → p2.stateName ≠ "idle" →
        p1.currCell = p2.currCell →
        p1.startMs < p2.startMs →
        p1.canBeCaptured = true →
        KFC.cellWinner [p1, p2] = some p2 ∧ KFC.cellCaptured [p1, p2] = [p1]) := by
  constructor
  · intro plist _hlen hno hmov
    obtain ⟨w, hwin, hwmem, hwn, hwmax⟩ := cellWinner_no_knights plist hno hmov
    refine ⟨w, hwin, hwmem, hwn, hwmax, ?_, ?_⟩
    · intro p hp hpne hpc
      unfold KFC.cellCaptured
      rw [hwin]
      exact List.mem_filter.mpr ⟨hp, by simp [hpne, hpc]⟩
    · intro hcon
      unfold KFC.cellCaptured at hcon
      rw [hwin] at hcon
      have := (List.mem_filter.mp hcon).2
      simp at this
  · intro p1 p2 hk1 hk2 hn1 hn2 _hcell hlt hcap
    have hne : p1 ≠ p2 := by
      intro h
      rw [h] at hlt
      exact lt_irrefl _ hlt
    obtain ⟨w, hwin, hwmem, _hwn, hwmax⟩ :=
      cellWinner_no_knights [p1, p2]
        (by intro p hp
            rcases List.mem_cons.mp hp with h | h
            · rw [h]; exact hk1
            · rcases List.mem_cons.mp h with h2 | h2
              · rw [h2]; exact hk2
              · exact absurd h2 (List.not_mem_nil p))
        ⟨p1, by simp, hn1⟩
    have hw2 : w = p2 := by
      rcases List.mem_cons.mp hwmem with h | h
      · exfalso
        have := hwmax p2 (by simp) hn2
        rw [h] at this
        exact absurd (lt_of_lt_of_le hlt this) (lt_irrefl _)
      · rcases List.mem_cons.mp h with h2 | h2
        · exact h2
        · exact absurd h2 (List.not_mem_nil w)
    subst hw2
    refine ⟨hwin, ?_⟩
    unfold KFC.cellCaptured
    rw [hwin]
    have hb1 : (p1 != w) = true := by simp [hne]
    have hb2 : (w != w) = false := by simp
    simp [List.filter, hb1, hb2, hcap]

/-- Witness for C2 at a concrete contender pair (an earlier-started black
rook mid-traversal against a later-started white bishop mid-traversal). -/
theorem nonidle_latest_started_survives_witness :
    KFC.cellWinner
        [⟨"RB_1", "move", 100, (4,4), (4,4), true⟩,
         ⟨"BW_1", "move", 250, (4,4), (4,4), true⟩]
      = some ⟨"BW_1", "move", 250, (4,4), (4,4), true⟩
    ∧ KFC.cellCaptured
        [⟨"RB_1", "move", 100, (4,4), (4,4), true⟩,
         ⟨"BW_1", "move", 250, (4,4), (4,4), true⟩]
      = [⟨"RB_1", "move", 100, (4,4), (4,4), true⟩] :=
  nonidle_latest_started_survives.2
    ⟨"RB_1", "move", 100, (4,4), (4,4), true⟩
    ⟨"BW_1", "move", 250, (4,4), (4,4), true⟩
    (by decide) (by decide) (by decide) (by decide) (by decide)
    (by decide) (by decide)

/-- C3 counterexample — two mid-traversal knights share cell `(2,2)`:
the first one in the contender list is at its literal destination, so the
resolver makes it the winner and removes the second knight, which is
mid-traversal at an intermediate cell (`(2,2) ≠ (4,3)`, its destination).
Hence it is not true that an in-flight knight passing through a cell never
has a capture triggered at that cell: only the FIRST moving knight of the
contender list gates the cell. -/
theorem knight_in_flight_captured_counterexample :
    KFC.isMovingKnight ⟨"NB_2", "move", 600, (2,2), (4,3), true⟩ = true
    ∧ (⟨"NB_2", "move", 600, (2,2), (4,3), true⟩ : KFC.FPiece).currCell
        ≠ (⟨"NB_2", "move", 600, (2,2), (4,3), true⟩ : KFC.FPiece).endCell
    ∧ KFC.cellCaptured
          [⟨"NW_1", "move", 500, (2,2), (2,2), true⟩,
           ⟨"NB_2", "move", 600, (2,2), (4,3), true⟩]
        = [⟨"NB_2", "move", 600, (2,2), (4,3), true⟩] := by
  refine ⟨by decide, by decide, ?_⟩
  decide

/-- C3 amended — Captures at a multiply-occupied cell are gated by
the first mid-traversal knight among its contenders: if that knight is
not at its traversal's literal destination cell, no capture is triggered
at the cell at all; in particular, a lone in-flight knight passing through
an intermediate cell never causes a removal there.  (A second
mid-traversal knight at the same cell is not itself protected, as the
counterexample shows.) -/
theorem first_moving_knight_gates_captures
    (plist : List KFC.FPiece) (k : KFC.FPiece) (rest : List KFC.FPiece)
    (hfilter : plist.filter KFC.isMovingKnight = k :: rest)
    (hmid : k.currCell ≠ k.endCell) :
    KFC.cellWinner plist = none ∧ KFC.cellCaptured plist = [] := by
  have hwin : KFC.cellWinner plist = none := by
    simp only [KFC.cellWinner, hfilter]
    rw [if_pos hmid]
  refine ⟨hwin, ?_⟩
  unfold KFC.cellCaptured
  rw [hwin]

/-- Witness for C3 (amended): a lone in-flight knight crossing an occupied
intermediate cell triggers no capture there. -/
theorem first_moving_knight_gates_captures_witness :
    KFC.cellWinner
        [⟨"NW_1", "move", 500, (2,1), (4,2), true⟩,
         ⟨"PB_9", "idle", 0, (2,1), (2,1), true⟩]
      = none
    ∧ KFC.cellCaptured
        [⟨"NW_1", "move", 500, (2,1), (4,2), true⟩,
         ⟨"PB_9", "idle", 0, (2,1), (2,1), true⟩]
      = [] :=
  first_moving_knight_gates_captures
    [⟨"NW_1", "move", 500, (2,1), (4,2), true⟩,
     ⟨"PB_9", "idle", 0, (2,1), (2,1), true⟩]
    ⟨"NW_1", "move", 500, (2,1), (4,2), true⟩ []
    (by decide) (by decide)

namespace KFC

/-- `p.id[1]`, the color character of a piece id. -/
def colorAt (pid : String) : Option Char := pid.toList.get? 1

/-- Loop of `Game._validate` (`KFC_Py/Game.py`, lines 596–611), carrying
`seen_cells` and the two king flags.  Mirrors the source exactly: when a
cell is already in `seen_cells`, the entry is compared against the current
piece's color and — crucially — `seen_cells` is NOT updated in that
branch. -/
def validateGo : List (String × Cell) → List (Cell × Option Char) → Bool → Bool → Bool
  | [], _, hw, hb => hw && hb
  | (pid, cell) :: rest, seen, hw, hb =>
    let hw' := hw || strStarts pid "KW"
    let hb' := hb || (!(strStarts pid "KW") && strStarts pid "KB")
    match seen.find? (fun e => e.1 = cell) with
    | some e =>
      if e.2 = colorAt pid then false
      else validateGo rest seen hw' hb'
    | none => validateGo rest ((cell, colorAt pid) :: seen) hw' hb'

/-- `Game._validate(pieces)`: `True` iff construction succeeds
(`Game.__init__` raises `InvalidBoard` exactly when this is `False`). -/
def validate (ps : List (String × Cell)) : Bool := validateGo ps [] false false

/-- The failing setup for C6: both kings present, and cell `(2,2)` holds a
white pawn and TWO black pieces — two entities of the same color on one
cell. -/
def badBoard : List (String × Cell) :=
  [("KW_1", (0,0)), ("KB_1", (1,1)),
   ("PW_1", (2,2)), ("PB_1", (2,2)), ("NB_1", (2,2))]

end KFC

/-- C6 — `badBoard` contains two entities of the same color (`PB_1`
and `NB_1`, both black) on the single cell `(2,2)`, so by the claim (and
by `_validate`'s own docstring, "no two pieces share a cell") game
construction must fail; yet `validate` returns `true` and construction
succeeds: the duplicate-cell branch never updates `seen_cells`, so after
the white pawn claims `(2,2)` every later black piece there is compared
against white only. -/
theorem validate_accepts_same_color_shared_cell :
    KFC.validate KFC.badBoard = true
    ∧ ("PB_1", ((2,2) : Cell)) ∈ KFC.badBoard
    ∧ ("NB_1", ((2,2) : Cell)) ∈ KFC.badBoard
    ∧ KFC.colorAt "PB_1" = KFC.colorAt "NB_1"
    ∧ ("PB_1" : String) ≠ "NB_1" := by
  refine ⟨?_, by decide, by decide, by decide, by decide⟩
  decide

namespace KFC

/-- The `KFC_Py` game state observed by the claims: the live `pieces`
list and the `piece_by_id` lookup table built at construction. -/
structure FGame where
  pieces : List FPiece
  pieceById : List (String × FPiece)

/-- `piece_by_id = {p.id: p for p in pieces}` lookup (`dict.get`). -/
def lookupById (m : List (String × FPiece)) (pid : String) : Option FPiece :=
  match m.find? (fun e => e.1 = pid) with
  | some e => some e.2
  | none => none

/-- The occupied cells, as keys of the per-tick cell→pieces map. -/
def occupiedCells (ps : List FPiece) : List Cell :=
  (ps.map (·.currCell)).dedup

/-- The contender list of one cell. -/
def contenders (ps : List FPiece) (c : Cell) : List FPiece :=
  ps.filter (fun p => p.currCell = c)

/-- All pieces removed as captured in one run of the capture loop of
`Game._resolve_collisions` (`KFC_Py/Game.py`, lines 390–453): cells with
fewer than two occupants are skipped, every other cell contributes
`cellCaptured` of its contender list. -/
def capturedPieces (ps : List FPiece) : List FPiece :=
  (occupiedCells ps).flatMap (fun c =>
    let plist := contenders ps c
    if plist.length < 2 then [] else cellCaptured plist)

/-- The capture phase of `Game._resolve_collisions`: removes the captured
pieces from `self.pieces` and touches nothing else — in particular
`piece_by_id` is never written (only `_check_pawn_promotion` edits it, and
a pawn promoted this tick is removed from `pieces` before the capture
grouping, so it is never among the captured). -/
def resolveCollisionsCapture (g : FGame) : FGame :=
  { g with pieces := g.pieces.filter (fun p => !(decide (p ∈ capturedPieces g.pieces))) }

/-- How `Game._process_input` (`KFC_Py/Game.py`, lines 358–374) treats a
command: an id missing from `piece_by_id` is dropped with a diagnostic;
otherwise the command is forwarded to the mover's state machine via
`mover.on_command`. -/
inductive InputOutcome where
  | unknown
  | forwarded
deriving DecidableEq, Repr

def processOutcome (g : FGame) (cmd : Command) : InputOutcome :=
  match lookupById g.pieceById cmd.piece_id with
  | none => .unknown
  | some _ => .forwarded

end KFC

/-- C10 — Every entity the Collision Resolver removes as captured is
gone from the `pieces` list but its id remains a key of `piece_by_id`
(only the pieces list is updated by the capture phase), so a later command
naming the captured entity's id is still resolved and forwarded to its
state machine rather than dropped as an unknown-entity command. -/
theorem captured_piece_id_still_resolvable
    (g : KFC.FGame) (p : KFC.FPiece) (cmd : Command)
    (hp : p ∈ KFC.capturedPieces g.pieces)
    (hid : KFC.lookupById g.pieceById p.id ≠ none)
    (hcmd : cmd.piece_id = p.id) :
    (KFC.resolveCollisionsCapture g).pieceById = g.pieceById
    ∧ p ∉ (KFC.resolveCollisionsCapture g).pieces
    ∧ KFC.processOutcome (KFC.resolveCollisionsCapture g) cmd = .forwarded := by
  refine ⟨rfl, ?_, ?_⟩
  · intro hmem
    have hcond := List.of_mem_filter hmem
    rw [Bool.not_eq_true'] at hcond
    rw [decide_eq_false_iff_not] at hcond
    exact hcond hp
  · unfold KFC.processOutcome
    rw [hcmd]
    have hpb : (KFC.resolveCollisionsCapture g).pieceById = g.pieceById := rfl
    rw [hpb]
    cases h : KFC.lookupById g.pieceById p.id with
    | none => exact absurd h hid
    | some q => rfl

/-- Witness for C10: a stationary white pawn captured by a later-started
black mover stays resolvable in `piece_by_id`. -/
theorem captured_piece_id_still_resolvable_witness :
    (KFC.resolveCollisionsCapture
        ⟨[⟨"PW_1", "idle", 0, (0,0), (0,0), true⟩,
          ⟨"RB_2", "move", 10, (0,0), (3,0), true⟩],
         [("PW_1", ⟨"PW_1", "idle", 0, (0,0), (0,0), true⟩),
          ("RB_2", ⟨"RB_2", "move", 10, (0,0), (3,0), true⟩)]⟩).pieceById
      = [("PW_1", ⟨"PW_1", "idle", 0, (0,0), (0,0), true⟩),
         ("RB_2", ⟨"RB_2", "move", 10, (0,0), (3,0), true⟩)]
    ∧ KFC.processOutcome
        (KFC.resolveCollisionsCapture
          ⟨[⟨"PW_1", "idle", 0, (0,0), (0,0), true⟩,
            ⟨"RB_2", "move", 10, (0,0), (3,0), true⟩],
           [("PW_1", ⟨"PW_1", "idle", 0, (0,0), (0,0), true⟩),
            ("RB_2", ⟨"RB_2", "move", 10, (0,0), (3,0), true⟩)]⟩)
        ⟨999, "PW_1", "move", []⟩
      = .forwarded := by
  have h := captured_piece_id_still_resolvable
    ⟨[⟨"PW_1", "idle", 0, (0,0), (0,0), true⟩,
      ⟨"RB_2", "move", 10, (0,0), (3,0), true⟩],
     [("PW_1", ⟨"PW_1", "idle", 0, (0,0), (0,0), true⟩),
      ("RB_2", ⟨"RB_2", "move", 10, (0,0), (3,0), true⟩)]⟩
    ⟨"PW_1", "idle", 0, (0,0), (0,0), true⟩
    ⟨999, "PW_1", "move", []⟩
    (by decide) (by decide) (by decide)
  exact ⟨h.1, h.2.2⟩

namespace Net

/-- The Peer Relay's two client slots (`chess_server.py`,
`ChessServer.__init__`).  Clients are identified by abstract tags. -/
structure ServerState where
  white : Option Nat
  black : Option Nat
deriving DecidableEq, Repr

inductive Assign where
  | assigned (color : String)
  | refused
deriving DecidableEq, Repr

/-- The slot-assignment section of `ChessServer.handle_client`
(`chess_server.py`, lines 23–36), run under `self.lock`: a free white
slot is claimed first, else a free black slot, else the connection is
closed without any color assignment or further handling. -/
def handleConnect (s : ServerState) (c : Nat) : ServerState × Assign :=
  if s.white = none then ({ s with white := some c }, .assigned "white")
  else if s.black = none then ({ s with black := some c }, .assigned "black")
  else (s, .refused)

/-- A relay wire message, modelling the JSON object sent over the socket
(`{'type', 'piece_id', 'src_cell', 'dst_cell'}`); the `tuple → list →
tuple` cell conversions on the wire are mutually inverse and cancel. -/
structure WireMsg where
  mtype : String
  piece_id : String
  src_cell : Cell
  dst_cell : Cell
deriving DecidableEq, Repr

/-- `network_process` in `chess_client.py` (lines 57–73): a command whose
piece belongs to this client's color and whose kind is `move`/`jump` is
serialized from its first two params and sent to the relay. -/
def serializeCmd (myColor : String) (cmd : Command) : Option WireMsg :=
  match cmd.params with
  | src :: dst :: _ =>
    if 1 < cmd.piece_id.length
        ∧ KungFu.charAt cmd.piece_id 1
            = some (if myColor = "white" then 'W' else 'B')
        ∧ (cmd.type = "move" ∨ cmd.type = "jump") then
      some ⟨cmd.type, cmd.piece_id, src, dst⟩
    else none
  | _ => none

/-- The forwarding loop of `ChessServer.handle_client` (`chess_server.py`,
lines 56–68): a `move`/`jump` message is forwarded verbatim to the other
client; anything else is ignored. -/
def relayForward (m : WireMsg) : Option WireMsg :=
  if m.mtype = "move" ∨ m.mtype = "jump" then some m else none

/-- `ChessClient.handle_messages` (`chess_client.py`, lines 95–106): a
received `move`/`jump` message is rebuilt into a `Command` carrying the
receiving instance's own current timestamp. -/
def deserializeMsg (m : WireMsg) (now : Int) : Command :=
  ⟨now, m.piece_id, m.mtype, [m.src_cell, m.dst_cell]⟩

end Net

/-- C8 — The Peer Relay assigns the first connection the fixed color
white and the second connection black, and refuses (closes with no color
assignment, leaving both slots untouched) any connection that arrives
while both slots are filled. -/
theorem relay_pairs_first_two_refuses_third :
    (∀ c1 : Nat, Net.handleConnect ⟨none, none⟩ c1
        = (⟨some c1, none⟩, .assigned "white"))
    ∧ (∀ c1 c2 : Nat,
        Net.handleConnect (Net.handleConnect ⟨none, none⟩ c1).1 c2
          = (⟨some c1, some c2⟩, .assigned "black"))
    ∧ (∀ (s : Net.ServerState) (c : Nat), s.white ≠ none → s.black ≠ none →
        Net.handleConnect s c = (s, .refused)) := by
  refine ⟨fun c1 => rfl, fun c1 c2 => rfl, ?_⟩
  intro s c hw hb
  unfold Net.handleConnect
  rw [if_neg hw, if_neg hb]

/-- Witness for C8: concrete first, second and third connections. -/
theorem relay_pairs_first_two_refuses_third_witness :
    Net.handleConnect ⟨none, none⟩ 7 = (⟨some 7, none⟩, .assigned "white")
    ∧ Net.handleConnect (Net.handleConnect ⟨none, none⟩ 7).1 8
        = (⟨some 7, some 8⟩, .assigned "black")
    ∧ Net.handleConnect ⟨some 7, some 8⟩ 9 = (⟨some 7, some 8⟩, .refused) :=
  ⟨relay_pairs_first_two_refuses_third.1 7,
   relay_pairs_first_two_refuses_third.2.1 7 8,
   relay_pairs_first_two_refuses_third.2.2 ⟨some 7, some 8⟩ 9
     (by decide) (by decide)⟩

/-- C9 — Serializing an accepted `move`/`jump` command to the relay
wire format, forwarding it through the Peer Relay, and deserializing it on
the receiving instance reconstructs an equivalent command: same entity id,
same kind, and the same destination cell (the second parameter), even
though the receiving side stamps its own timestamp. -/
theorem relay_round_trip_preserves_command
    (myColor : String) (cmd : Command) (src dst : Cell) (rest : List Cell)
    (now2 : Int)
    (hparams : cmd.params = src :: dst :: rest)
    (hlen : 1 < cmd.piece_id.length)
    (hcolor : KungFu.charAt cmd.piece_id 1
        = some (if myColor = "white" then 'W' else 'B'))
    (hkind : cmd.type = "move" ∨ cmd.type = "jump") :
    ∃ m : Net.WireMsg,
      Net.serializeCmd myColor cmd = some m
      ∧ Net.relayForward m = some m
      ∧ (Net.deserializeMsg m now2).piece_id = cmd.piece_id
      ∧ (Net.deserializeMsg m now2).type = cmd.type
      ∧ (Net.deserializeMsg m now2).params.get? 1 = some dst
      ∧ (Net.deserializeMsg m now2).timestamp = now2 := by
  refine ⟨⟨cmd.type, cmd.piece_id, src, dst⟩, ?_, ?_, rfl, rfl, rfl, rfl⟩
  · unfold Net.serializeCmd
    rw [hparams]
    dsimp only
    rw [if_pos ⟨hlen, hcolor, hkind⟩]
  · unfold Net.relayForward
    rw [if_pos hkind]

/-- Witness for C9: a white pawn's move command round-trips. -/
theorem relay_round_trip_preserves_command_witness :
    ∃ m : Net.WireMsg,
      Net.serializeCmd "white" ⟨1234, "PW_1", "move", [(6,0), (5,0)]⟩ = some m
      ∧ Net.relayForward m = some m
      ∧ (Net.deserializeMsg m 777).piece_id = "PW_1"
      ∧ (Net.deserializeMsg m 777).type = "move"
      ∧ (Net.deserializeMsg m 777).params.get? 1 = some (5,0)
      ∧ (Net.deserializeMsg m 777).timestamp = 777 :=
  relay_round_trip_preserves_command "white" ⟨1234, "PW_1", "move", [(6,0), (5,0)]⟩
    (6,0) (5,0) [] 777 rfl (by decide) (by decide) (by decide)

namespace Factory

/-- A state-machine template for one piece type, as built by
`PieceFactory._build_state_machine` (`KungFu Chess/PieceFactory.py`):
`n` states with per-state `name`, an identity tag `physRef` for the
state's own `Physics` object (the physics factory hands each template
state its own instance), and the transition list `tr` mapping an event
name to a target state index. -/
structure Template (n : Nat) where
  name : Fin n → String
  physRef : Fin n → Nat
  tr : Fin n → List (String × Fin n)

/-- The worklist loop of `PieceFactory.create_piece` (`KungFu
Chess/PieceFactory.py`, lines 80–106): pop a state; if not yet cloned,
clone it and push all its transition targets.  The returned set is the key
set of `clone_map`. -/
def cloneWork {n : Nat} (tr : Fin n → List (String × Fin n)) :
    List (Fin n) → Finset (Fin n) → Finset (Fin n)
  | [], acc => acc
  | i :: stack, acc =>
    if i ∈ acc then cloneWork tr stack acc
    else cloneWork tr ((tr i).map Prod.snd ++ stack) (insert i acc)
termination_by stack acc => (n - acc.card, stack.length)
decreasing_by
  · apply Prod.Lex.right
    simp
  · apply Prod.Lex.left
    rename_i hmem
    have hlt : acc.card < n := by
      have hne : acc ≠ Finset.univ := fun h => hmem (h ▸ Finset.mem_univ i)
      have h2 := (Finset.card_lt_iff_ne_univ acc).mpr hne
      simpa using h2
    rw [Finset.card_insert_of_not_mem hmem]
    omega

theorem cloneWork_acc_subset {n : Nat} (tr : Fin n → List (String × Fin n)) :
    ∀ (stack : List (Fin n)) (acc : Finset (Fin n)),
      acc ⊆ cloneWork tr stack acc := by
  intro stack acc
  induction stack, acc using cloneWork.induct tr with
  | case1 acc =>
    rw [cloneWork]
  | case2 i stack acc hmem ih =>
    rw [cloneWork, if_pos hmem]
    exact ih
  | case3 i stack acc hmem ih =>
    rw [cloneWork, if_neg hmem]
    exact fun a ha => ih (Finset.mem_insert_of_mem ha)

theorem cloneWork_stack_subset {n : Nat} (tr : Fin n → List (String × Fin n)) :
    ∀ (stack : List (Fin n)) (acc : Finset (Fin n)),
      ∀ j ∈ stack, j ∈ cloneWork tr stack acc := by
  intro stack acc
  induction stack, acc using cloneWork.induct tr with
  | case1 acc =>
    intro j hj
    exact absurd hj (List.not_mem_nil j)
  | case2 i stack acc hmem ih =>
    intro j hj
    rw [cloneWork, if_pos hmem]
    rcases List.mem_cons.mp hj with h | h
    · subst h
      exact cloneWork_acc_subset tr stack acc hmem
    · exact ih j h
  | case3 i stack acc hmem ih =>
    intro j hj
    rw [cloneWork, if_neg hmem]
    rcases List.mem_cons.mp hj with h | h
    · subst h
      exact cloneWork_acc_subset tr _ _ (Finset.mem_insert_self j acc)
    · exact ih j (List.mem_append_right _ h)

theorem cloneWork_closed {n : Nat} (tr : Fin n → List (String × Fin n)) :
    ∀ (stack : List (Fin n)) (acc : Finset (Fin n)),
      (∀ a ∈ acc, ∀ e ∈ tr a, e.2 ∈ acc ∨ e.2 ∈ stack) →
      ∀ a ∈ cloneWork tr stack acc, ∀ e ∈ tr a,
        e.2 ∈ cloneWork tr stack acc := by
  intro stack acc
  induction stack, acc using cloneWork.induct tr with
  | case1 acc =>
    intro hinv a ha e he
    rw [cloneWork] at ha ⊢
    rcases hinv a ha e he with h | h
    · exact h
    · exact absurd h (List.not_mem_nil _)
  | case2 i stack acc hmem ih =>
    intro hinv a ha e he
    rw [cloneWork, if_pos hmem] at ha ⊢
    refine ih ?_ a ha e he
    intro b hb f hf
    rcases hinv b hb f hf with h | h
    · exact Or.inl h
    · rcases List.mem_cons.mp h with h2 | h2
      · rw [h2]; exact Or.inl hmem
      · exact Or.inr h2
  | case3 i stack acc hmem ih =>
    intro hinv a ha e he
    rw [cloneWork, if_neg hmem] at ha ⊢
    refine ih ?_ a ha e he
    intro b hb f hf
    rcases Finset.mem_insert.mp hb with hb2 | hb2
    · subst hb2
      exact Or.inr (List.mem_append_left _ (List.mem_map_of_mem Prod.snd hf))
    · rcases hinv b hb2 f hf with h | h
      · exact Or.inl (Finset.mem_insert_of_mem h)
      · rcases List.mem_cons.mp h with h2 | h2
        · rw [h2]; exact Or.inl (Finset.mem_insert_self i acc)
        · exact Or.inr (List.mem_append_right _ h2)

/-- The set of template states `create_piece` clones, starting from the
template's initial (idle) state. -/
def cloneSet {n : Nat} (tm : Template n) (init : Fin n) : Finset (Fin n) :=
  cloneWork tm.tr [init] ∅

/-- A cloned state of the new piece. -/
structure CloneState (n : Nat) where
  name : String
  physRef : Nat
  tr : List (String × Fin n)
deriving DecidableEq, Repr

/-- The clone of template state `i` built by `create_piece`: `moves` is
shared (not modelled), graphics is copied (not modelled), and `physics`
is the ONE `shared_phys` object — `physRef := sharedRef` for every clone;
the re-wiring step maps each transition edge through `clone_map`, i.e.
edge targets keep their template indices but are interpreted in the
clone's own index space. -/
def cloneState {n : Nat} (tm : Template n) (sharedRef : Nat) (i : Fin n) : CloneState n :=
  ⟨tm.name i, sharedRef, tm.tr i⟩

end Factory

/-- C7 — For every piece created by `create_piece`'s graph-clone
routine (the initial state is cloned, and the clone map is closed under
transition targets), every cloned state — in particular every state
reachable from the initial clone — carries the single shared Motion
Interpolator `sharedRef` and never a template state's own interpolator;
and every transition edge of a cloned state targets a state inside the
clone map of the same piece, never outside it. -/
theorem clone_graph_single_physics_and_closed
    {n : Nat} (tm : Factory.Template n) (init : Fin n) (sharedRef : Nat)
    (hfresh : ∀ i : Fin n, tm.physRef i ≠ sharedRef) :
    init ∈ Factory.cloneSet tm init
    ∧ (∀ i ∈ Factory.cloneSet tm init,
        (Factory.cloneState tm sharedRef i).physRef = sharedRef
        ∧ ∀ j : Fin n, (Factory.cloneState tm sharedRef i).physRef ≠ tm.physRef j)
    ∧ (∀ i ∈ Factory.cloneSet tm init,
        ∀ e ∈ (Factory.cloneState tm sharedRef i).tr,
          e.2 ∈ Factory.cloneSet tm init) := by
  refine ⟨?_, ?_, ?_⟩
  · exact Factory.cloneWork_stack_subset tm.tr [init] ∅ init (by simp)
  · intro i _hi
    exact ⟨rfl, fun j h => hfresh j h.symm⟩
  · intro i hi e he
    exact Factory.cloneWork_closed tm.tr [init] ∅
      (by intro a ha; exact absurd ha (Finset.not_mem_empty a)) i hi e he

namespace Factory

/-- A tiny concrete template (idle ↔ move) for the C7 witness. -/
def tmpl2 : Template 2 :=
  { name := fun i => if i = 0 then "idle" else "move"
    physRef := fun i => i.val
    tr := fun i => if i = 0 then [("Move", 1)] else [("Move", 1), ("Arrived", 0)] }

end Factory

/-- Witness for C7 at the concrete two-state template with shared physics
tag `99`. -/
theorem clone_graph_single_physics_and_closed_witness :
    (0 : Fin 2) ∈ Factory.cloneSet Factory.tmpl2 0
    ∧ (∀ i ∈ Factory.cloneSet Factory.tmpl2 0,
        (Factory.cloneState Factory.tmpl2 99 i).physRef = 99
        ∧ ∀ j : Fin 2,
          (Factory.cloneState Factory.tmpl2 99 i).physRef ≠ Factory.tmpl2.physRef j)
    ∧ (∀ i ∈ Factory.cloneSet Factory.tmpl2 0,
        ∀ e ∈ (Factory.cloneState Factory.tmpl2 99 i).tr,
          e.2 ∈ Factory.cloneSet Factory.tmpl2 0) :=
  clone_graph_single_physics_and_closed Factory.tmpl2 0 99 (by decide)
